import Mathlib

/-!
# Verification of the DynaPort port allocator, service registry and config manager

Shallow embedding of the core subsystems of the `dynaport` repository:

* `src/dynaport/port_allocator.py` (class `PortAllocator`),
* `src/dynaport/core/service_registry.py` (dataclass `ServiceInfo` and class
  `ServiceRegistry`),
* `src/dynaport/config_manager.py` (method `ConfigManager._merge_config`).

Python dictionaries are modelled as association lists with insertion-order
semantics (assignment replaces the first matching key in place, otherwise
appends; deletion removes the entry).  The socket availability probe
(`is_port_available` minus its reserved-set check) is modelled as a boolean
oracle `b : Nat -> Bool`; Python's `random.shuffle` and set iteration order are
modelled by passing the iteration sequences (`used`, `shuffled`) as explicit
parameters, with faithfulness side conditions (being permutations of the lists
the Python code computes) stated as hypotheses of the theorems.  Raising
`RuntimeError` is modelled by returning `none`.
-/

/-- Python `d.get(k)` / `d[k]` on a dict modelled as an association list:
the value of the first entry whose key equals `k`. -/
def dictGet? {α : Type} (m : List (String × α)) (k : String) : Option α :=
  (m.find? (fun q => q.1 = k)).map (fun q => q.2)

/-- Python `d[k] = v`: replace the value of the existing entry for `k` in
place, otherwise append a new entry (insertion-order semantics of `dict`). -/
def dictSet {α : Type} : List (String × α) → String → α → List (String × α)
  | [], k, v => [(k, v)]
  | (k0, v0) :: rest, k, v =>
      if k0 = k then (k, v) :: rest else (k0, v0) :: dictSet rest k v

/-- Python `del d[k]`: remove the entry for `k` (no-op when absent). -/
def dictDel {α : Type} : List (String × α) → String → List (String × α)
  | [], _ => []
  | (k0, v0) :: rest, k =>
      if k0 = k then rest else (k0, v0) :: dictDel rest k

/-- The list of values of the assignment table
(`self.port_assignments.values()`). -/
def portValues (t : List (String × Nat)) : List Nat :=
  t.map (fun q => q.2)

/-- `PortAllocator.is_port_available`: `False` immediately for a reserved
port, otherwise the result of the socket bind probe (oracle `b`). -/
def isPortAvailable (r : List Nat) (b : Nat → Bool) (q : Nat) : Bool :=
  if q ∈ r then false else b q

/-- The list `available_ports` computed in `PortAllocator.find_available_port`
before shuffling: all in-range ports that are neither reserved nor currently
a value of the assignment table. -/
def candidatePorts (lo hi : Nat) (r : List Nat) (t : List (String × Nat)) : List Nat :=
  (List.range' lo (hi + 1 - lo)).filter
    (fun q => decide (¬ q ∈ r) && decide (¬ q ∈ portValues t))

/-- `PortAllocator.find_available_port`.  `used` is the iteration sequence of
`set(self.port_assignments.values())` and `shuffled` the shuffled
`available_ports` list; `none` models the `RuntimeError` raised when no port
is found. -/
def findAvailablePort (lo hi : Nat) (r : List Nat) (b : Nat → Bool)
    (used shuffled : List Nat) : Option Nat :=
  match used.find? (fun q => decide (lo ≤ q) && decide (q ≤ hi) && isPortAvailable r b q) with
  | some q => some q
  | none => shuffled.find? (fun q => isPortAvailable r b q)

/-- The tail of `PortAllocator.allocate_port` that assigns a port found by
`find_available_port`, saves, and returns it. -/
def allocateFromRange (lo hi : Nat) (r : List Nat) (b : Nat → Bool)
    (t : List (String × Nat)) (appId : String) (used shuffled : List Nat) :
    Option (Nat × List (String × Nat) × Bool) :=
  match findAvailablePort lo hi r b used shuffled with
  | some q => some (q, dictSet t appId q, true)
  | none => none

/-- The part of `PortAllocator.allocate_port` reached when no still-available
existing assignment was returned: try the preferred port, then fall through to
`find_available_port`. -/
def allocateFresh (lo hi : Nat) (r : List Nat) (b : Nat → Bool)
    (t : List (String × Nat)) (appId : String) (preferredPort : Option Nat)
    (used shuffled : List Nat) : Option (Nat × List (String × Nat) × Bool) :=
  match preferredPort with
  | some q =>
      if lo ≤ q ∧ q ≤ hi ∧ isPortAvailable r b q = true then
        some (q, dictSet t appId q, true)
      else allocateFromRange lo hi r b t appId used shuffled
  | none => allocateFromRange lo hi r b t appId used shuffled

/-- `PortAllocator.allocate_port`.  The result is `(port, table, saved)`
where `saved` records whether `_save_port_assignments` was called on that
path; `none` models the propagated `RuntimeError` of `find_available_port`. -/
def allocatePort (lo hi : Nat) (r : List Nat) (b : Nat → Bool)
    (t : List (String × Nat)) (appId : String) (preferredPort : Option Nat)
    (used shuffled : List Nat) : Option (Nat × List (String × Nat) × Bool) :=
  match dictGet? t appId with
  | some assignedPort =>
      if isPortAvailable r b assignedPort then some (assignedPort, t, false)
      else allocateFresh lo hi r b t appId preferredPort used shuffled
  | none => allocateFresh lo hi r b t appId preferredPort used shuffled

/-- `PortAllocator.release_port`: remove the entry if present (then save);
the boolean records whether `_save_port_assignments` was called. -/
def releasePort (t : List (String × Nat)) (appId : String) :
    List (String × Nat) × Bool :=
  if (dictGet? t appId).isSome then (dictDel t appId, true) else (t, false)

/-- One call against a `PortAllocator` instance: an `allocate_port` call
(carrying its probe oracle and its iteration sequences) or a
`release_port` call. -/
inductive AllocOp where
  | alloc (key : String) (preferredPort : Option Nat) (b : Nat → Bool)
      (used shuffled : List Nat)
  | release (key : String)

/-- Effect of one call on the in-memory assignment table (a failed
`allocate_port` raises before mutating the table). -/
def runOp (lo hi : Nat) (r : List Nat) (t : List (String × Nat)) :
    AllocOp → List (String × Nat)
  | AllocOp.alloc key pref b used shuffled =>
      match allocatePort lo hi r b t key pref used shuffled with
      | some (_, t2, _) => t2
      | none => t
  | AllocOp.release key => (releasePort t key).1

/-- Effect of a sequence of calls on the assignment table. -/
def runOps (lo hi : Nat) (r : List Nat) (t : List (String × Nat))
    (ops : List AllocOp) : List (String × Nat) :=
  ops.foldl (runOp lo hi r) t

/-- Faithfulness of one call's modelled nondeterminism to the Python code at
table `t`, together with the amended probe proviso: `used` enumerates
`set(port_assignments.values())`, `shuffled` is a permutation of
`available_ports`, and every port currently assigned to a key other than the
requested one fails the availability check. -/
def OpOk (lo hi : Nat) (r : List Nat) (t : List (String × Nat)) : AllocOp → Prop
  | AllocOp.alloc key _ b used shuffled =>
      used.Perm (portValues t).dedup ∧
      shuffled.Perm (candidatePorts lo hi r t) ∧
      ∀ k' q, k' ≠ key → dictGet? t k' = some q → isPortAvailable r b q = false
  | AllocOp.release _ => True

/-- `OpOk` holding at every step of a call sequence. -/
def OpsOk (lo hi : Nat) (r : List Nat) : List (String × Nat) → List AllocOp → Prop
  | _, [] => True
  | t, op :: ops => OpOk lo hi r t op ∧ OpsOk lo hi r (runOp lo hi r t op) ops

/-- Values appearing in a `ServiceInfo.to_dict` dictionary.  `F` is the type
of timestamps (Python floats, never computed with here) and `M` the type of
the opaque values stored in the `metadata` / `health_check_custom` dicts. -/
inductive DVal (F M : Type) where
  | vnull
  | vstr (s : String)
  | vint (n : Int)
  | vflt (x : F)
  | vstrs (l : List String)
  | vdict (m : List (String × M))

/-- Encoding of an `Optional[str]` field value (`None` or the string). -/
def optStr {F M : Type} : Option String → DVal F M
  | none => DVal.vnull
  | some s => DVal.vstr s

/-- Encoding of an `Optional[float]` field value. -/
def optFlt {F M : Type} : Option F → DVal F M
  | none => DVal.vnull
  | some x => DVal.vflt x

/-- Encoding of an `Optional[Dict[str, Any]]` field value. -/
def optDict {F M : Type} : Option (List (String × M)) → DVal F M
  | none => DVal.vnull
  | some m => DVal.vdict m

/-- Decoder for a `str` field. -/
def asStr {F M : Type} : DVal F M → Option String
  | DVal.vstr s => some s
  | _ => none

/-- Decoder for an `int` field. -/
def asInt {F M : Type} : DVal F M → Option Int
  | DVal.vint n => some n
  | _ => none

/-- Decoder for an `Optional[str]` field. -/
def asOptStr {F M : Type} : DVal F M → Option (Option String)
  | DVal.vnull => some none
  | DVal.vstr s => some (some s)
  | _ => none

/-- Decoder for an `Optional[float]` field. -/
def asOptFlt {F M : Type} : DVal F M → Option (Option F)
  | DVal.vnull => some none
  | DVal.vflt x => some (some x)
  | _ => none

/-- Decoder for a `List[str]` field. -/
def asStrs {F M : Type} : DVal F M → Option (List String)
  | DVal.vstrs l => some l
  | _ => none

/-- Decoder for a `Dict[str, Any]` field. -/
def asDict {F M : Type} : DVal F M → Option (List (String × M))
  | DVal.vdict m => some m
  | _ => none

/-- Decoder for an `Optional[Dict[str, Any]]` field. -/
def asOptDict {F M : Type} : DVal F M → Option (Option (List (String × M)))
  | DVal.vnull => some none
  | DVal.vdict m => some (some m)
  | _ => none

/-- The dataclass `ServiceInfo` of `src/dynaport/core/service_registry.py`,
with the same fields, field order and defaults.  Timestamps (Python floats)
have the abstract type `F`; the arbitrary values inside `metadata` and
`health_check_custom` have the abstract type `M`. -/
structure ServiceInfo (F M : Type) where
  app_id : String
  instance_id : String
  name : String
  port : Int
  host : String := "127.0.0.1"
  status : String := "unknown"
  health_endpoint : Option String := none
  last_health_check : Option F := none
  health_status : String := "unknown"
  dependencies : List String := []
  metadata : List (String × M) := []
  technology : Option String := none
  health_check_type : String := "http"
  health_check_command : Option String := none
  health_check_custom : Option (List (String × M)) := some []

/-- The `service_id` property: `f"{self.app_id}:{self.instance_id}"`. -/
def ServiceInfo.service_id {F M : Type} (s : ServiceInfo F M) : String :=
  s.app_id ++ ":" ++ s.instance_id

/-- `ServiceInfo.to_dict` (`dataclasses.asdict`): every field, in declaration
order, converted to its dictionary representation. -/
def ServiceInfo.to_dict {F M : Type} (s : ServiceInfo F M) : List (String × DVal F M) :=
  [("app_id", DVal.vstr s.app_id),
   ("instance_id", DVal.vstr s.instance_id),
   ("name", DVal.vstr s.name),
   ("port", DVal.vint s.port),
   ("host", DVal.vstr s.host),
   ("status", DVal.vstr s.status),
   ("health_endpoint", optStr s.health_endpoint),
   ("last_health_check", optFlt s.last_health_check),
   ("health_status", DVal.vstr s.health_status),
   ("dependencies", DVal.vstrs s.dependencies),
   ("metadata", DVal.vdict s.metadata),
   ("technology", optStr s.technology),
   ("health_check_type", DVal.vstr s.health_check_type),
   ("health_check_command", optStr s.health_check_command),
   ("health_check_custom", optDict s.health_check_custom)]

/-- `ServiceInfo.from_dict` (`cls(**data)`): reconstruct the record from the
dictionary, reading each constructor field by name. -/
def ServiceInfo.from_dict {F M : Type} (m : List (String × DVal F M)) :
    Option (ServiceInfo F M) := do
  let app_id ← (dictGet? m "app_id").bind asStr
  let instance_id ← (dictGet? m "instance_id").bind asStr
  let name ← (dictGet? m "name").bind asStr
  let port ← (dictGet? m "port").bind asInt
  let host ← (dictGet? m "host").bind asStr
  let status ← (dictGet? m "status").bind asStr
  let health_endpoint ← (dictGet? m "health_endpoint").bind asOptStr
  let last_health_check ← (dictGet? m "last_health_check").bind asOptFlt
  let health_status ← (dictGet? m "health_status").bind asStr
  let dependencies ← (dictGet? m "dependencies").bind asStrs
  let metadata ← (dictGet? m "metadata").bind asDict
  let technology ← (dictGet? m "technology").bind asOptStr
  let health_check_type ← (dictGet? m "health_check_type").bind asStr
  let health_check_command ← (dictGet? m "health_check_command").bind asOptStr
  let health_check_custom ← (dictGet? m "health_check_custom").bind asOptDict
  pure ⟨app_id, instance_id, name, port, host, status, health_endpoint,
    last_health_check, health_status, dependencies, metadata, technology,
    health_check_type, health_check_command, health_check_custom⟩

/-- Python truthiness of an `Optional[str]` value: `None` and the empty
string are falsy. -/
def strTruthy : Option String → Bool
  | none => false
  | some s => if s = "" then false else true

/-- Outcomes of the external effects a single health check can perform:
the current time, the HTTP GET result (`none` models a
`requests.RequestException`), whether the raw TCP connect succeeded, and the
command exit code (`none` models a `SubprocessError`/`OSError`). -/
structure HealthEnv (F : Type) where
  now : F
  httpStatus : Option Nat
  tcpConnect : Bool
  cmdExit : Option Int

/-- `ServiceRegistry._check_http_health`. -/
def checkHttpHealth {F M : Type} (e : HealthEnv F) (s : ServiceInfo F M) :
    ServiceInfo F M :=
  if strTruthy s.health_endpoint = false then { s with health_status := "unknown" }
  else
    match e.httpStatus with
    | some code =>
        if code = 200 then { s with health_status := "healthy" }
        else { s with health_status := "unhealthy" }
    | none => { s with health_status := "unhealthy" }

/-- `ServiceRegistry._check_tcp_health`. -/
def checkTcpHealth {F M : Type} (e : HealthEnv F) (s : ServiceInfo F M) :
    ServiceInfo F M :=
  if e.tcpConnect then { s with health_status := "healthy" }
  else { s with health_status := "unhealthy" }

/-- `ServiceRegistry._check_command_health`. -/
def checkCommandHealth {F M : Type} (e : HealthEnv F) (s : ServiceInfo F M) :
    ServiceInfo F M :=
  if strTruthy s.health_check_command = false then { s with health_status := "unknown" }
  else
    match e.cmdExit with
    | some code =>
        if code = 0 then { s with health_status := "healthy" }
        else { s with health_status := "unhealthy" }
    | none => { s with health_status := "unhealthy" }

/-- `ServiceRegistry._check_custom_health`: a placeholder that always sets
the status to `"unknown"`. -/
def checkCustomHealth {F M : Type} (s : ServiceInfo F M) : ServiceInfo F M :=
  { s with health_status := "unknown" }

/-- `ServiceRegistry._check_service_health`: skip when no health check is
configured, otherwise stamp `last_health_check` and dispatch on
`health_check_type`. -/
def checkServiceHealth {F M : Type} (e : HealthEnv F) (s : ServiceInfo F M) :
    ServiceInfo F M :=
  if strTruthy s.health_endpoint = false ∧ s.health_check_type ≠ "tcp" ∧
      strTruthy s.health_check_command = false then s
  else
    let s2 : ServiceInfo F M := { s with last_health_check := some e.now }
    if s2.health_check_type = "http" then checkHttpHealth e s2
    else if s2.health_check_type = "tcp" then checkTcpHealth e s2
    else if s2.health_check_type = "command" then checkCommandHealth e s2
    else if s2.health_check_type = "custom" then checkCustomHealth s2
    else s2

/-- One cycle of `ServiceRegistry._check_all_services_health`: every
registered service is checked in turn (the per-service `try`/`except` has no
counterpart here because the modelled check is total; the external effects of
service `sid`'s check are `e sid`). -/
def checkAllServicesHealth {F M : Type} (e : String → HealthEnv F)
    (svcs : List (String × ServiceInfo F M)) : List (String × ServiceInfo F M) :=
  svcs.map (fun q => (q.1, checkServiceHealth (e q.1) q.2))

/-- A value in the configuration tree handled by
`ConfigManager._merge_config`: scalars, lists and nested dicts. -/
inductive CVal where
  | vint (n : Int)
  | vstr (s : String)
  | vbool (x : Bool)
  | vlist (l : List CVal)
  | vdict (m : List (String × CVal))

/-- `ConfigManager._merge_config`, written functionally: for each key of the
override, recursively merge when both sides hold dicts, otherwise overwrite
the base entry with the override value. -/
def mergeConfig : List (String × CVal) → List (String × CVal) → List (String × CVal)
  | b, [] => b
  | b, (k, v) :: rest =>
      match dictGet? b k, v with
      | some (CVal.vdict bm), CVal.vdict om =>
          mergeConfig (dictSet b k (CVal.vdict (mergeConfig bm om))) rest
      | _, _ => mergeConfig (dictSet b k v) rest

/-- The `graph` built by `ServiceRegistry.get_dependency_order`: each
registered service id mapped to the set of its dependency ids (a Python
`set`, modelled as a deduplicated list). -/
def buildGraph (svcs : List (String × List String)) : List (String × List String) :=
  svcs.map (fun s => (s.1, s.2.dedup))

/-- Adding one edge to `reverse_graph` (`reverse_graph[dep].add(service_id)`
after creating the entry when missing). -/
def addReverseEdge (rev : List (String × List String)) (dep sid : String) :
    List (String × List String) :=
  match dictGet? rev dep with
  | none => rev ++ [(dep, [sid])]
  | some l => if sid ∈ l then rev else dictSet rev dep (l ++ [sid])

/-- The `reverse_graph` built by `ServiceRegistry.get_dependency_order`:
dependency id mapped to the set of its dependents. -/
def buildReverse (svcs : List (String × List String)) : List (String × List String) :=
  svcs.foldl (fun rev s => s.2.foldl (fun r2 d => addReverseEdge r2 d s.1) rev) []

/-- `graph[dependent].remove(service_id)` on the modelled graph. -/
def removeFromGraph (graph : List (String × List String)) (dependent sid : String) :
    List (String × List String) :=
  graph.map (fun q => if q.1 = dependent then (q.1, q.2.erase sid) else q)

/-- One iteration of `for dependent in reverse_graph[service_id]`: remove the
satisfied `sid` from the dependent's remaining-dependency set and, when that
set becomes empty, add the dependent to `next_no_deps` (a set: no duplicate
insertions). -/
def stepDependent (sid : String)
    (st : List (String × List String) × List String) (dependent : String) :
    List (String × List String) × List String :=
  if dictGet? (removeFromGraph st.1 dependent sid) dependent = some [] ∧
      ¬ dependent ∈ st.2
  then (removeFromGraph st.1 dependent sid, st.2 ++ [dependent])
  else (removeFromGraph st.1 dependent sid, st.2)

/-- Processing one satisfied `service_id` of the current layer: remove it
from every dependent's remaining-dependency set, collecting dependents whose
set becomes empty into `next_no_deps`. -/
def stepSid (rev : List (String × List String))
    (acc : List (String × List String) × List String) (sid : String) :
    List (String × List String) × List String :=
  match dictGet? rev sid with
  | none => acc
  | some deps => deps.foldl (stepDependent sid) acc

/-- The `while no_deps:` loop of `ServiceRegistry.get_dependency_order`,
with explicit fuel (each pass emits a nonempty layer of distinct service ids,
so `svcs.length + 1` passes always suffice). -/
def kahnLoop (rev : List (String × List String)) :
    Nat → List (String × List String) → List String → List (List String)
  | 0, _, _ => []
  | Nat.succ fuel, graph, noDeps =>
      if noDeps = [] then []
      else
        noDeps :: kahnLoop rev fuel (noDeps.foldl (stepSid rev) (graph, [])).1
          (noDeps.foldl (stepSid rev) (graph, [])).2

/-- `ServiceRegistry.get_dependency_order`, on the service table restricted
to what the algorithm reads: each service id paired with its dependency
list. -/
def getDependencyOrder (svcs : List (String × List String)) : List (List String) :=
  let graph := buildGraph svcs
  let rev := buildReverse svcs
  let noDeps := (graph.filter (fun q => q.2.isEmpty)).map (fun q => q.1)
  kahnLoop rev (svcs.length + 1) graph noDeps

/-- Invariant carried through the dependency-order loop for a service `s0`
that declares a dependency on a never-registered id `g0`: `g0` has no node of
its own, `s0` still waits on `g0`, and everything queued in the pending layer
has an empty remaining-dependency set. -/
def GoodState (g0 s0 : String) (st : List (String × List String) × List String) : Prop :=
  dictGet? st.1 g0 = none ∧
  (∃ l, dictGet? st.1 s0 = some l ∧ g0 ∈ l) ∧
  ∀ x ∈ st.2, dictGet? st.1 x = some []

theorem dictGet?_nil {α : Type} (k : String) : dictGet? ([] : List (String × α)) k = none := rfl

theorem dictGet?_cons {α : Type} (q : String × α) (k : String) (rest : List (String × α)) :
    dictGet? (q :: rest) k = if q.1 = k then some q.2 else dictGet? rest k := by
  by_cases h : q.1 = k <;> simp [dictGet?, List.find?, h]

theorem dictGet?_dictSet_self {α : Type} (m : List (String × α)) (k : String) (v : α) :
    dictGet? (dictSet m k v) k = some v := by
  induction m with
  | nil => simp [dictSet, dictGet?_cons]
  | cons q rest ih =>
      by_cases h : q.1 = k
      · simp [dictSet, h, dictGet?_cons]
      · simp [dictSet, h, dictGet?_cons, ih]

theorem dictGet?_eq_none_iff {α : Type} (m : List (String × α)) (k : String) :
    dictGet? m k = none ↔ ¬ k ∈ m.map (fun q => q.1) := by
  induction m with
  | nil => simp [dictGet?]
  | cons q rest ih =>
      rw [dictGet?_cons]
      by_cases h : q.1 = k
      · simp [h]
      · simp only [h, if_neg, not_false_iff, ih, List.map_cons, List.mem_cons]
        constructor
        · intro h2 h3
          rcases h3 with h3 | h3
          · exact h h3.symm
          · exact h2 h3
        · intro h2 h3
          exact h2 (Or.inr h3)

theorem dictGet?_of_mem_of_nodup {α : Type} {m : List (String × α)} {k : String} {v : α}
    (hmem : (k, v) ∈ m) (hnd : (m.map (fun q => q.1)).Nodup) :
    dictGet? m k = some v := by
  induction m with
  | nil => cases hmem
  | cons q rest ih =>
      simp only [List.map_cons, List.nodup_cons] at hnd
      rw [dictGet?_cons]
      rcases List.mem_cons.mp hmem with h | h
      · rw [← h]; simp
      · have hk : q.1 ≠ k := by
          intro he
          exact hnd.1 (he ▸ (List.mem_map.mpr ⟨(k, v), h, rfl⟩))
        simp [hk, ih h hnd.2]

theorem mem_of_dictGet?_eq_some {α : Type} {m : List (String × α)} {k : String} {v : α}
    (h : dictGet? m k = some v) : v ∈ m.map (fun q => q.2) := by
  induction m with
  | nil => simp [dictGet?] at h
  | cons q rest ih =>
      rw [dictGet?_cons] at h
      by_cases hq : q.1 = k
      · simp [hq] at h
        simp [← h]
      · simp [hq] at h
        simp [ih h]

theorem mem_keys_dictSet {α : Type} {m : List (String × α)} {k x : String} {v : α}
    (h : x ∈ (dictSet m k v).map (fun q => q.1)) :
    x ∈ m.map (fun q => q.1) ∨ x = k := by
  induction m with
  | nil => simp [dictSet] at h; exact Or.inr h
  | cons q rest ih =>
      by_cases hq : q.1 = k
      · simp [dictSet, hq] at h
        rcases h with h | h
        · exact Or.inr h
        · exact Or.inl (by simp [h])
      · simp [dictSet, hq] at h
        rcases h with h | h
        · exact Or.inl (by simp [h])
        · rcases ih (by simpa using h) with h2 | h2
          · exact Or.inl (by simp [h2])
          · exact Or.inr h2

theorem keys_dictSet_nodup {α : Type} {m : List (String × α)} (k : String) (v : α)
    (hnd : (m.map (fun q => q.1)).Nodup) :
    ((dictSet m k v).map (fun q => q.1)).Nodup := by
  induction m with
  | nil => simp [dictSet]
  | cons q rest ih =>
      simp only [List.map_cons, List.nodup_cons] at hnd
      by_cases h : q.1 = k
      · simp only [dictSet, h, if_pos]
        simp only [List.map_cons, List.nodup_cons]
        exact ⟨h ▸ hnd.1, hnd.2⟩
      · simp only [dictSet, h, if_neg, not_false_iff]
        simp only [List.map_cons, List.nodup_cons]
        refine ⟨?_, ih hnd.2⟩
        intro hmem
        rcases mem_keys_dictSet hmem with h2 | h2
        · exact hnd.1 h2
        · exact h h2

theorem mem_values_dictSet {α : Type} {m : List (String × α)} {k : String} {v x : α}
    (h : x ∈ (dictSet m k v).map (fun q => q.2)) :
    x ∈ m.map (fun q => q.2) ∨ x = v := by
  induction m with
  | nil => simp [dictSet] at h; exact Or.inr h
  | cons q rest ih =>
      by_cases hq : q.1 = k
      · simp [dictSet, hq] at h
        rcases h with h | h
        · exact Or.inr h
        · exact Or.inl (by simp [h])
      · simp [dictSet, hq] at h
        rcases h with h | h
        · exact Or.inl (by simp [h])
        · rcases ih (by simpa using h) with h2 | h2
          · exact Or.inl (by simp [h2])
          · exact Or.inr h2

theorem values_dictSet_nodup {α : Type} {m : List (String × α)} {k : String} {v : α}
    (hk : (m.map (fun q => q.1)).Nodup) (hv : (m.map (fun q => q.2)).Nodup)
    (hother : ∀ k' v', k' ≠ k → dictGet? m k' = some v' → v' ≠ v) :
    ((dictSet m k v).map (fun q => q.2)).Nodup := by
  induction m with
  | nil => simp [dictSet]
  | cons q rest ih =>
      simp only [List.map_cons, List.nodup_cons] at hk hv
      by_cases h : q.1 = k
      · simp only [dictSet, h, if_pos, List.map_cons, List.nodup_cons]
        refine ⟨?_, hv.2⟩
        intro hmem
        rcases List.mem_map.mp hmem with ⟨q2, hq2, he⟩
        have hne : q2.1 ≠ k := by
          intro he2
          apply hk.1
          rw [h, ← he2]
          exact List.mem_map.mpr ⟨q2, hq2, rfl⟩
        refine hother q2.1 q2.2 hne ?_ he
        have hne2 : q.1 ≠ q2.1 := fun he3 => hne (he3 ▸ h)
        rw [dictGet?_cons, if_neg hne2]
        exact dictGet?_of_mem_of_nodup hq2 hk.2
      · simp only [dictSet, h, if_neg, not_false_iff, List.map_cons, List.nodup_cons]
        have hqv : q.2 ≠ v := by
          refine hother q.1 q.2 h ?_
          rw [dictGet?_cons]; simp
        refine ⟨?_, ?_⟩
        · intro hmem
          rcases mem_values_dictSet hmem with h2 | h2
          · exact hv.1 h2
          · exact hqv h2
        · refine ih hk.2 hv.2 ?_
          intro k' v' hne hget
          have hqk : q.1 ≠ k' := by
            intro he
            have hnone : dictGet? rest k' = none :=
              (dictGet?_eq_none_iff rest k').mpr (he ▸ hk.1)
            rw [hnone] at hget
            cases hget
          refine hother k' v' hne ?_
          rw [dictGet?_cons, if_neg hqk]
          exact hget

theorem dictDel_keys_sublist {α : Type} (m : List (String × α)) (k : String) :
    ((dictDel m k).map (fun q => q.1)).Sublist (m.map (fun q => q.1)) := by
  induction m with
  | nil => simp [dictDel]
  | cons q rest ih =>
      by_cases h : q.1 = k
      · simp only [dictDel, h, if_pos, List.map_cons]
        exact List.Sublist.cons _ (List.Sublist.refl _)
      · simp only [dictDel, h, if_neg, not_false_iff, List.map_cons]
        exact List.Sublist.cons₂ _ ih

theorem dictDel_values_sublist {α : Type} (m : List (String × α)) (k : String) :
    ((dictDel m k).map (fun q => q.2)).Sublist (m.map (fun q => q.2)) := by
  induction m with
  | nil => simp [dictDel]
  | cons q rest ih =>
      by_cases h : q.1 = k
      · simp only [dictDel, h, if_pos, List.map_cons]
        exact List.Sublist.cons _ (List.Sublist.refl _)
      · simp only [dictDel, h, if_neg, not_false_iff, List.map_cons]
        exact List.Sublist.cons₂ _ ih

theorem findAvailablePort_some {lo hi : Nat} {r : List Nat} {b : Nat → Bool}
    {used shuffled : List Nat} {q : Nat}
    (h : findAvailablePort lo hi r b used shuffled = some q) :
    isPortAvailable r b q = true ∧ (q ∈ used ∧ lo ≤ q ∧ q ≤ hi) ∨
      isPortAvailable r b q = true ∧ q ∈ shuffled := by
  unfold findAvailablePort at h
  rcases hf : used.find?
      (fun q => decide (lo ≤ q) && decide (q ≤ hi) && isPortAvailable r b q) with _ | p
  · rw [hf] at h
    simp only at h
    have hmem := List.mem_of_find?_eq_some h
    have hpred := List.find?_some h
    exact Or.inr ⟨hpred, hmem⟩
  · rw [hf] at h
    simp only [Option.some.injEq] at h
    subst h
    have hmem := List.mem_of_find?_eq_some hf
    have hpred := List.find?_some hf
    simp only [Bool.and_eq_true, decide_eq_true_eq] at hpred
    exact Or.inl ⟨hpred.2, hmem, hpred.1.1, hpred.1.2⟩

theorem mem_candidatePorts {lo hi : Nat} {r : List Nat} {t : List (String × Nat)} {q : Nat}
    (h : q ∈ candidatePorts lo hi r t) :
    lo ≤ q ∧ q ≤ hi ∧ ¬ q ∈ r ∧ ¬ q ∈ portValues t := by
  unfold candidatePorts at h
  have hmem := List.mem_of_mem_filter h
  have hpred := List.of_mem_filter h
  simp only [Bool.and_eq_true, decide_eq_true_eq] at hpred
  rw [List.mem_range'_1] at hmem
  exact ⟨hmem.1, by omega, hpred.1, hpred.2⟩

theorem allocatePort_spec {lo hi : Nat} {r : List Nat} {b : Nat → Bool}
    {t : List (String × Nat)} {appId : String} {preferredPort : Option Nat}
    {used shuffled : List Nat} {p : Nat} {t2 : List (String × Nat)} {sv : Bool}
    (h : allocatePort lo hi r b t appId preferredPort used shuffled = some (p, t2, sv)) :
    isPortAvailable r b p = true ∧
      ((sv = false ∧ t2 = t ∧ dictGet? t appId = some p) ∨
        (sv = true ∧ t2 = dictSet t appId p)) := by
  have hfresh : ∀ (h2 : allocateFresh lo hi r b t appId preferredPort used shuffled
        = some (p, t2, sv)),
      isPortAvailable r b p = true ∧ (sv = true ∧ t2 = dictSet t appId p) := by
    intro h2
    unfold allocateFresh allocateFromRange at h2
    have hrange : ∀ (h3 : (match findAvailablePort lo hi r b used shuffled with
          | some q => some (q, dictSet t appId q, true)
          | none => (none : Option (Nat × List (String × Nat) × Bool)))
          = some (p, t2, sv)),
        isPortAvailable r b p = true ∧ (sv = true ∧ t2 = dictSet t appId p) := by
      intro h3
      rcases hf : findAvailablePort lo hi r b used shuffled with _ | q
      · rw [hf] at h3; cases h3
      · rw [hf] at h3
        simp only [Option.some.injEq, Prod.mk.injEq] at h3
        obtain ⟨h4, h5, h6⟩ := h3
        subst h4; subst h5; subst h6
        rcases findAvailablePort_some hf with ⟨ha, _⟩ | ⟨ha, _⟩ <;>
          exact ⟨ha, rfl, rfl⟩
    rcases preferredPort with _ | q
    · exact hrange h2
    · simp only at h2
      by_cases hc : lo ≤ q ∧ q ≤ hi ∧ isPortAvailable r b q = true
      · rw [if_pos hc] at h2
        simp only [Option.some.injEq, Prod.mk.injEq] at h2
        obtain ⟨h4, h5, h6⟩ := h2
        subst h4; subst h5; subst h6
        exact ⟨hc.2.2, rfl, rfl⟩
      · rw [if_neg hc] at h2
        exact hrange h2
  unfold allocatePort at h
  rcases hg : dictGet? t appId with _ | ap
  · rw [hg] at h
    have := hfresh h
    exact ⟨this.1, Or.inr this.2⟩
  · rw [hg] at h
    simp only at h
    by_cases hc : isPortAvailable r b ap = true
    · rw [if_pos hc] at h
      simp only [Option.some.injEq, Prod.mk.injEq] at h
      obtain ⟨h4, h5, h6⟩ := h
      exact ⟨h4 ▸ hc, Or.inl ⟨h6.symm, h5.symm, by rw [h4]⟩⟩
    · rw [if_neg hc] at h
      have := hfresh h
      exact ⟨this.1, Or.inr this.2⟩

theorem allocatePort_no_steal {lo hi : Nat} {r : List Nat} {b : Nat → Bool}
    {t : List (String × Nat)} {key : String} {pref : Option Nat}
    {used shuffled : List Nat} {p : Nat} {t2 : List (String × Nat)} {sv : Bool}
    (hop : OpOk lo hi r t (AllocOp.alloc key pref b used shuffled))
    (h : allocatePort lo hi r b t key pref used shuffled = some (p, t2, sv)) :
    ∀ k', k' ≠ key → dictGet? t k' ≠ some p := by
  intro k' hne hget
  have havail := (allocatePort_spec h).1
  have hfalse := hop.2.2 k' p hne hget
  rw [havail] at hfalse
  cases hfalse

theorem runOp_preserves {lo hi : Nat} {r : List Nat} {t : List (String × Nat)}
    (op : AllocOp)
    (hk : (t.map (fun q => q.1)).Nodup) (hv : (portValues t).Nodup)
    (hop : OpOk lo hi r t op) :
    ((runOp lo hi r t op).map (fun q => q.1)).Nodup ∧
      (portValues (runOp lo hi r t op)).Nodup := by
  rcases op with ⟨key, pref, b, used, shuffled⟩ | key
  · show (((match allocatePort lo hi r b t key pref used shuffled with
        | some (_, t2, _) => t2
        | none => t) : List (String × Nat)).map (fun q => q.1)).Nodup ∧ _
    rcases ha : allocatePort lo hi r b t key pref used shuffled with _ | res
    · simpa [runOp, ha] using ⟨hk, hv⟩
    · rcases res with ⟨p, t2, sv⟩
      simp only [runOp, ha]
      rcases (allocatePort_spec ha).2 with ⟨_, he, _⟩ | ⟨_, he⟩
      · rw [he]; exact ⟨hk, hv⟩
      · rw [he]
        refine ⟨keys_dictSet_nodup key p hk, ?_⟩
        refine values_dictSet_nodup hk hv ?_
        intro k' v' hne hget hev
        have hfalse := hop.2.2 k' v' hne hget
        have havail := (allocatePort_spec ha).1
        rw [hev, havail] at hfalse
        cases hfalse
  · simp only [runOp, releasePort]
    by_cases h : (dictGet? t key).isSome
    · rw [if_pos h]
      exact ⟨(dictDel_keys_sublist t key).nodup hk,
        (dictDel_values_sublist t key).nodup hv⟩
    · rw [if_neg h]
      exact ⟨hk, hv⟩

/-- C1 (amended): starting from an assignment table whose keys are distinct and
whose ports are pairwise distinct, any sequence of `allocate_port` /
`release_port` calls preserves both, provided that at each `allocate_port`
call every port currently assigned to a key other than the requested one fails
the availability check (`OpOk`); in particular such an `allocate_port` call
never returns a port that the table currently assigns to a different key. -/
theorem c1_theorem (lo hi : Nat) (r : List Nat) (t : List (String × Nat))
    (ops : List AllocOp)
    (hk : (t.map (fun q => q.1)).Nodup) (hv : (portValues t).Nodup)
    (hops : OpsOk lo hi r t ops) :
    (((runOps lo hi r t ops).map (fun q => q.1)).Nodup ∧
      (portValues (runOps lo hi r t ops)).Nodup) ∧
    (∀ key pref b used shuffled p t2 sv,
      OpOk lo hi r t (AllocOp.alloc key pref b used shuffled) →
      allocatePort lo hi r b t key pref used shuffled = some (p, t2, sv) →
      ∀ k', k' ≠ key → dictGet? t k' ≠ some p) := by
  refine ⟨?_, ?_⟩
  · induction ops generalizing t with
    | nil => exact ⟨hk, hv⟩
    | cons op rest ih =>
        have hstep := runOp_preserves op hk hv hops.1
        exact ih (runOp lo hi r t op) hstep.1 hstep.2 hops.2
  · intro key pref b used shuffled p t2 sv hop ha
    exact allocatePort_no_steal hop ha

/-- C1 counterexample: with table `{"a": 8000}` and every port probing
available, `allocate_port("b")` reuses port 8000 — already assigned to key
`"a"` — via the previously-assigned-ports pass of `find_available_port`,
leaving a table in which port 8000 appears for two different keys.  (`used`
and `shuffled` are exactly the lists the Python code computes.) -/
theorem c1_counterexample :
    allocatePort 8000 8002 [] (fun _ => true) [("a", 8000)] "b" Option.none
        [8000] [8001, 8002]
      = some (8000, [("a", 8000), ("b", 8000)], true) ∧
    ¬ (portValues [("a", 8000), ("b", 8000)]).Nodup :=
  ⟨rfl, by decide⟩

theorem c1_witness :
    (((runOps 8000 8001 [] [("a", 8000)]
        [AllocOp.alloc "b" Option.none (fun q => decide (q ≠ 8000)) [8000] [8001]]).map
          (fun q => q.1)).Nodup ∧
      (portValues (runOps 8000 8001 [] [("a", 8000)]
        [AllocOp.alloc "b" Option.none (fun q => decide (q ≠ 8000)) [8000] [8001]])).Nodup) ∧
    (∀ key pref b used shuffled p t2 sv,
      OpOk 8000 8001 [] [("a", 8000)] (AllocOp.alloc key pref b used shuffled) →
      allocatePort 8000 8001 [] b [("a", 8000)] key pref used shuffled = some (p, t2, sv) →
      ∀ k', k' ≠ key → dictGet? [("a", 8000)] k' ≠ some p) :=
  c1_theorem 8000 8001 [] [("a", 8000)]
    [AllocOp.alloc "b" Option.none (fun q => decide (q ≠ 8000)) [8000] [8001]]
    (by decide) (by decide)
    ⟨⟨List.Perm.refl _, List.Perm.refl _, by
      intro k' q hne hget
      rw [dictGet?_cons] at hget
      by_cases h : (("a", 8000) : String × Nat).1 = k'
      · rw [if_pos h] at hget
        cases hget
        rfl
      · rw [if_neg h] at hget
        cases hget⟩, trivial⟩

/-- C3 counterexample: when the requested key already has an assignment whose
port still probes available, `allocate_port` returns it with `saved = false`:
this successful return path does not persist the table. -/
theorem c3_counterexample :
    allocatePort 8000 8002 [] (fun _ => true) [("app1", 8000)] "app1" Option.none
        [8000] [8001, 8002]
      = some (8000, [("app1", 8000)], false) := rfl

/-- C3 (amended): every successful `allocate_port` path that mutates the
table persists it before returning (`saved = true`, and the returned port is
recorded for the key); the path returning an existing still-available
assignment returns without persisting (`saved = false`) and leaves the table
unchanged. -/
theorem c3_theorem (lo hi : Nat) (r : List Nat) (b : Nat → Bool)
    (t : List (String × Nat)) (appId : String) (pref : Option Nat)
    (used shuffled : List Nat) (p : Nat) (t2 : List (String × Nat)) (sv : Bool)
    (h : allocatePort lo hi r b t appId pref used shuffled = some (p, t2, sv)) :
    (sv = true ∧ t2 = dictSet t appId p ∧ dictGet? t2 appId = some p) ∨
    (sv = false ∧ t2 = t ∧ dictGet? t appId = some p) := by
  rcases (allocatePort_spec h).2 with ⟨h1, h2, h3⟩ | ⟨h1, h2⟩
  · exact Or.inr ⟨h1, h2, h3⟩
  · exact Or.inl ⟨h1, h2, by rw [h2]; exact dictGet?_dictSet_self t appId p⟩

theorem c3_witness :
    (true = true ∧ [("a", 8000)] = dictSet [] "a" 8000 ∧
      dictGet? [("a", 8000)] "a" = some 8000) ∨
    (true = false ∧ [("a", 8000)] = [] ∧ dictGet? [] "a" = some 8000) :=
  c3_theorem 8000 8002 [] (fun _ => true) [] "a" Option.none [] [8000, 8001, 8002]
    8000 [("a", 8000)] true rfl

theorem allocatePort_existing {lo hi : Nat} {r : List Nat} {b : Nat → Bool}
    {t : List (String × Nat)} {key : String} {pref : Option Nat}
    {used shuffled : List Nat} {p : Nat}
    (hget : dictGet? t key = some p) (hav : isPortAvailable r b p = true) :
    allocatePort lo hi r b t key pref used shuffled = some (p, t, false) := by
  unfold allocatePort
  rw [hget]
  simp [hav]

/-- C6: if `allocate_port(key)` succeeds with port `p` and (as in the claim)
`p` still probes available at the second call, then the immediately repeated
`allocate_port(key)` returns the same port `p` and leaves the whole table —
in particular the entry for `key` — unchanged. -/
theorem c6_theorem (lo hi : Nat) (r : List Nat) (a b : Nat → Bool)
    (t : List (String × Nat)) (key : String) (pref pref2 : Option Nat)
    (used shuffled used2 shuffled2 : List Nat) (p : Nat)
    (t2 : List (String × Nat)) (sv : Bool)
    (h1 : allocatePort lo hi r a t key pref used shuffled = some (p, t2, sv))
    (hfree : isPortAvailable r b p = true) :
    allocatePort lo hi r b t2 key pref2 used2 shuffled2 = some (p, t2, false) := by
  have hget : dictGet? t2 key = some p := by
    rcases (allocatePort_spec h1).2 with ⟨_, he, hg⟩ | ⟨_, he⟩
    · rw [he]; exact hg
    · rw [he]; exact dictGet?_dictSet_self t key p
  exact allocatePort_existing hget hfree

theorem c6_witness :
    allocatePort 8000 8002 [] (fun _ => true) [("a", 8000)] "a" Option.none
        [8000] [8001, 8002]
      = some (8000, [("a", 8000)], false) :=
  c6_theorem 8000 8002 [] (fun _ => true) (fun _ => true) [] "a" Option.none
    Option.none [] [8000, 8001, 8002] [8000] [8001, 8002] 8000 [("a", 8000)] true
    rfl rfl

/-- C7: with `used` and `shuffled` faithful to the Python state, if every
in-range port is unavailable (reserved, or failing the probe — which covers
assigned-and-unavailable ports), `find_available_port` raises the
resource-exhaustion error (modelled as `none`); and any port it does return
lies within the inclusive range. -/
theorem c7_theorem (lo hi : Nat) (r : List Nat) (b : Nat → Bool)
    (t : List (String × Nat)) (used shuffled : List Nat)
    (_hu : used.Perm (portValues t).dedup)
    (hs : shuffled.Perm (candidatePorts lo hi r t)) :
    ((∀ q, lo ≤ q → q ≤ hi → isPortAvailable r b q = false) →
      findAvailablePort lo hi r b used shuffled = none) ∧
    (∀ q, findAvailablePort lo hi r b used shuffled = some q → lo ≤ q ∧ q ≤ hi) := by
  constructor
  · intro hex
    unfold findAvailablePort
    have h1 : used.find?
        (fun q => decide (lo ≤ q) && decide (q ≤ hi) && isPortAvailable r b q) = none := by
      rw [List.find?_eq_none]
      intro q hq
      by_cases hlo : lo ≤ q
      · by_cases hhi : q ≤ hi
        · simp [hlo, hhi, hex q hlo hhi]
        · simp [hhi]
      · simp [hlo]
    rw [h1]
    show shuffled.find? (fun q => isPortAvailable r b q) = none
    rw [List.find?_eq_none]
    intro q hq
    have hmem := mem_candidatePorts (hs.mem_iff.mp hq)
    simp [hex q hmem.1 hmem.2.1]
  · intro q hq
    rcases findAvailablePort_some hq with ⟨_, _, hlo, hhi⟩ | ⟨_, hmem⟩
    · exact ⟨hlo, hhi⟩
    · have h2 := mem_candidatePorts (hs.mem_iff.mp hmem)
      exact ⟨h2.1, h2.2.1⟩

theorem c7_witness :
    ((∀ q, 8000 ≤ q → q ≤ 8001 →
        isPortAvailable [8000] (fun _ => false) q = false) →
      findAvailablePort 8000 8001 [8000] (fun _ => false) [9000] [8001] = none) ∧
    (∀ q, findAvailablePort 8000 8001 [8000] (fun _ => false) [9000] [8001] = some q →
      8000 ≤ q ∧ q ≤ 8001) :=
  c7_theorem 8000 8001 [8000] (fun _ => false) [("a", 9000)] [9000] [8001]
    (List.Perm.refl _) (List.Perm.refl _)

theorem find?_of_forall_of_ne_nil {α : Type} {pred : α → Bool} {l : List α}
    (hall : ∀ x ∈ l, pred x = true) (hne : l ≠ []) :
    ∃ q, l.find? pred = some q ∧ q ∈ l := by
  cases l with
  | nil => exact (hne rfl).elim
  | cons x xs =>
      refine ⟨x, ?_, List.mem_cons_self x xs⟩
      rw [List.find?_cons_of_pos]
      exact hall x (List.mem_cons_self x xs)

/-- C2 counterexample: with range (8000,8002), both allocators sharing the
persisted table, and all three ports still probing free at the second call
(the scenario's stated precondition), the second allocator's
`allocate("svc:2")` returns the *same* port 8000 that `allocate("svc:1")`
obtained — `find_available_port` reuses any in-range assigned port that
probes available — contradicting the claimed distinctness. -/
theorem c2_counterexample :
    allocatePort 8000 8002 [] (fun _ => true) [] "svc:1" Option.none []
        [8000, 8001, 8002]
      = some (8000, [("svc:1", 8000)], true) ∧
    allocatePort 8000 8002 [] (fun _ => true) [("svc:1", 8000)] "svc:2" Option.none
        [8000] [8001, 8002]
      = some (8000, [("svc:1", 8000), ("svc:2", 8000)], true) :=
  ⟨rfl, rfl⟩

/-- C2 (amended): with range (8000,8002), no reservations and an empty table,
`allocate("svc:1")` returns a port `p` in {8000,8001,8002} and persists
`{"svc:1": p}`; a second allocator over the same stored table, calling
`allocate("svc:2")`, receives a *different* port from that set provided the
first port no longer probes available at that time (the first service is
bound to it); when `p` still probes available the second call returns `p`
itself (see the counterexample). -/
theorem c2_theorem (a : Nat → Bool) (s1 : List Nat)
    (hs1 : s1.Perm (candidatePorts 8000 8002 [] []))
    (ha : ∀ q ∈ ([8000, 8001, 8002] : List Nat), a q = true) :
    ∃ p t1, allocatePort 8000 8002 [] a [] "svc:1" Option.none [] s1
        = some (p, t1, true) ∧
      p ∈ ([8000, 8001, 8002] : List Nat) ∧ t1 = [("svc:1", p)] ∧
      ∀ (b : Nat → Bool) (u2 s2 : List Nat),
        u2.Perm (portValues t1).dedup →
        s2.Perm (candidatePorts 8000 8002 [] t1) →
        b p = false →
        (∀ q ∈ ([8000, 8001, 8002] : List Nat), q ≠ p → b q = true) →
        ∃ q t2, allocatePort 8000 8002 [] b t1 "svc:2" Option.none u2 s2
            = some (q, t2, true) ∧
          q ∈ ([8000, 8001, 8002] : List Nat) ∧ q ≠ p := by
  have hcand : candidatePorts 8000 8002 [] [] = [8000, 8001, 8002] := rfl
  have hmem1 : ∀ x ∈ s1, x ∈ ([8000, 8001, 8002] : List Nat) := by
    intro x hx
    have := hs1.mem_iff.mp hx
    rw [hcand] at this
    exact this
  have hall1 : ∀ x ∈ s1, isPortAvailable [] a x = true := by
    intro x hx
    show (if x ∈ ([] : List Nat) then false else a x) = true
    simp [ha x (hmem1 x hx)]
  have hne1 : s1 ≠ [] := by
    intro he
    rw [he] at hs1
    have := hs1.length_eq
    rw [hcand] at this
    simp at this
  obtain ⟨p, hfindp, hpmem⟩ := find?_of_forall_of_ne_nil hall1 hne1
  have hpset := hmem1 p hpmem
  have hfind1 : findAvailablePort 8000 8002 [] a [] s1 = some p := hfindp
  have halloc1 : allocatePort 8000 8002 [] a [] "svc:1" Option.none [] s1
      = match findAvailablePort 8000 8002 [] a [] s1 with
        | some q => some (q, dictSet [] "svc:1" q, true)
        | none => none := rfl
  refine ⟨p, [("svc:1", p)], ?_, hpset, rfl, ?_⟩
  · rw [halloc1, hfind1]
    rfl
  · intro b u2 s2 hu2 hs2 hbp hbq
    have hu2p : u2 = [p] := by
      have h2 : (portValues [("svc:1", p)]).dedup = [p] := by
        simp [portValues, List.dedup]
      rw [h2] at hu2
      exact List.perm_singleton.mp hu2
    subst hu2p
    have hp3 : p = 8000 ∨ p = 8001 ∨ p = 8002 := by
      simpa using hpset
    have husedn : ([p] : List Nat).find?
        (fun q => decide (8000 ≤ q) && decide (q ≤ 8002) && isPortAvailable [] b q)
        = none := by
      have hav : isPortAvailable [] b p = false := by
        show (if p ∈ ([] : List Nat) then false else b p) = false
        simp [hbp]
      simp [List.find?, hav]
    have hmem2 : ∀ x ∈ s2, x ∈ ([8000, 8001, 8002] : List Nat) ∧ x ≠ p := by
      intro x hx
      have hc := mem_candidatePorts (hs2.mem_iff.mp hx)
      refine ⟨?_, ?_⟩
      · have h1 := hc.1
        have h2 := hc.2.1
        simp only [List.mem_cons, List.mem_singleton]
        omega
      · intro he
        exact hc.2.2.2 (by simp [portValues, he])
    have hall2 : ∀ x ∈ s2, isPortAvailable [] b x = true := by
      intro x hx
      show (if x ∈ ([] : List Nat) then false else b x) = true
      simp [hbq x (hmem2 x hx).1 (hmem2 x hx).2]
    have hne2 : s2 ≠ [] := by
      intro he
      rw [he] at hs2
      have h3 := hs2.length_eq
      rcases hp3 with h | h | h <;> subst h <;> exact absurd h3 (by decide)
    obtain ⟨q, hfindq, hqmem⟩ := find?_of_forall_of_ne_nil hall2 hne2
    have hfind2 : findAvailablePort 8000 8002 [] b [p] s2 = some q := by
      unfold findAvailablePort
      rw [husedn]
      exact hfindq
    have halloc2 : allocatePort 8000 8002 [] b [("svc:1", p)] "svc:2" Option.none [p] s2
        = match findAvailablePort 8000 8002 [] b [p] s2 with
          | some q2 => some (q2, dictSet [("svc:1", p)] "svc:2" q2, true)
          | none => none := rfl
    refine ⟨q, dictSet [("svc:1", p)] "svc:2" q, ?_, (hmem2 q hqmem).1, (hmem2 q hqmem).2⟩
    rw [halloc2, hfind2]

theorem c2_witness :
    ∃ p t1, allocatePort 8000 8002 [] (fun _ => true) [] "svc:1" Option.none []
        [8000, 8001, 8002] = some (p, t1, true) ∧
      p ∈ ([8000, 8001, 8002] : List Nat) ∧ t1 = [("svc:1", p)] ∧
      ∀ (b : Nat → Bool) (u2 s2 : List Nat),
        u2.Perm (portValues t1).dedup →
        s2.Perm (candidatePorts 8000 8002 [] t1) →
        b p = false →
        (∀ q ∈ ([8000, 8001, 8002] : List Nat), q ≠ p → b q = true) →
        ∃ q t2, allocatePort 8000 8002 [] b t1 "svc:2" Option.none u2 s2
            = some (q, t2, true) ∧
          q ∈ ([8000, 8001, 8002] : List Nat) ∧ q ≠ p :=
  c2_theorem (fun _ => true) [8000, 8001, 8002] (List.Perm.refl _) (by decide)

/-- C8: a service with no `health_endpoint`, no `health_check_command` and a
`health_check_type` other than `"tcp"` is skipped entirely by
`_check_service_health`: the record — `health_status`, `last_health_check`
and every other field — is returned unchanged. -/
theorem c8_theorem {F M : Type} (e : HealthEnv F) (s : ServiceInfo F M)
    (h1 : s.health_endpoint = none) (h2 : s.health_check_command = none)
    (h3 : s.health_check_type ≠ "tcp") :
    checkServiceHealth e s = s := by
  unfold checkServiceHealth
  rw [if_pos]
  exact ⟨by rw [h1]; rfl, h3, by rw [h2]; rfl⟩

theorem c8_witness :
    checkServiceHealth ((⟨0, Option.none, false, Option.none⟩ : HealthEnv Int))
      ((⟨"app1", "i1", "n", 8000, "127.0.0.1", "unknown", Option.none, Option.none,
        "healthy", [], ([] : List (String × Int)), Option.none, "custom", Option.none,
        some []⟩ : ServiceInfo Int Int))
      = (⟨"app1", "i1", "n", 8000, "127.0.0.1", "unknown", Option.none, Option.none,
        "healthy", [], ([] : List (String × Int)), Option.none, "custom", Option.none,
        some []⟩ : ServiceInfo Int Int) :=
  c8_theorem _ _ rfl rfl (by decide)

/-- C5 counterexample: a registered service with `health_check_type =
"custom"` but neither a health endpoint nor a health-check command is skipped
by the guard of `_check_service_health`, so a health-check pass leaves its
`health_status` at `"healthy"` instead of setting it to `"unknown"`. -/
theorem c5_counterexample :
    (checkServiceHealth ((⟨0, Option.none, false, Option.none⟩ : HealthEnv Int))
      ((⟨"app1", "i1", "n", 8000, "127.0.0.1", "unknown", Option.none, Option.none,
        "healthy", [], ([] : List (String × Int)), Option.none, "custom", Option.none,
        some []⟩ : ServiceInfo Int Int))).health_status = "healthy" ∧
    ("healthy" : String) ≠ "unknown" :=
  ⟨rfl, by decide⟩

/-- C5 (amended): for a service with `health_check_type = "custom"` that
passes the skip guard (it has a truthy `health_endpoint` or a truthy
`health_check_command`), a health-check pass sets `health_status` to
`"unknown"`; custom services with neither configured are skipped untouched
(see the counterexample). -/
theorem c5_theorem {F M : Type} (e : HealthEnv F) (s : ServiceInfo F M)
    (hty : s.health_check_type = "custom")
    (hcfg : strTruthy s.health_endpoint = true ∨
      strTruthy s.health_check_command = true) :
    (checkServiceHealth e s).health_status = "unknown" := by
  unfold checkServiceHealth
  rw [if_neg]
  · simp [hty, checkCustomHealth]
  · intro hcon
    rcases hcfg with h | h
    · rw [hcon.1] at h; cases h
    · rw [hcon.2.2] at h; cases h

theorem c5_witness :
    (checkServiceHealth ((⟨0, Option.none, false, Option.none⟩ : HealthEnv Int))
      ((⟨"app1", "i1", "n", 8000, "127.0.0.1", "unknown", some "/health", Option.none,
        "healthy", [], ([] : List (String × Int)), Option.none, "custom", Option.none,
        some []⟩ : ServiceInfo Int Int))).health_status = "unknown" :=
  c5_theorem _ _ rfl (Or.inl rfl)

/-- C10: the dictionary round trip used by registry persistence is lossless:
for every `ServiceInfo` record `s`, `from_dict (to_dict s)` reconstructs a
record equal to `s` in all fields. -/
theorem c10_theorem {F M : Type} (s : ServiceInfo F M) :
    ServiceInfo.from_dict (ServiceInfo.to_dict s) = some s := by
  rcases s with ⟨a1, a2, a3, a4, a5, a6, he, hl, a9, a10, a11, te, a13, hc, cu⟩
  rcases he with _ | he <;> rcases hl with _ | hl <;> rcases te with _ | te <;>
    rcases hc with _ | hc <;> rcases cu with _ | cu <;> rfl

theorem mergeConfig_nil (b : List (String × CVal)) : mergeConfig b [] = b := by
  simp [mergeConfig]

theorem mergeConfig_single_nondict (b : List (String × CVal)) (k : String)
    (l : List CVal) :
    mergeConfig b [(k, CVal.vlist l)] = dictSet b k (CVal.vlist l) := by
  rcases hg : dictGet? b k with _ | val
  · simp [mergeConfig, hg]
  · cases val <;> simp [mergeConfig, hg]

/-- C9: the configuration deep-merge recursively merges nested mapping leaves
and overwrites every other leaf wholesale: merging base `{a: {x:1, y:2}}`
with override `{a: {y:3, z:4}}` yields `{a: {x:1, y:3, z:4}}`, and a
list-valued leaf in the override fully replaces whatever the base holds at
that key (never concatenating). -/
theorem c9_theorem :
    (mergeConfig [("a", CVal.vdict [("x", CVal.vint 1), ("y", CVal.vint 2)])]
        [("a", CVal.vdict [("y", CVal.vint 3), ("z", CVal.vint 4)])]
      = [("a", CVal.vdict [("x", CVal.vint 1), ("y", CVal.vint 3), ("z", CVal.vint 4)])]) ∧
    ∀ (b : List (String × CVal)) (k : String) (l : List CVal),
      dictGet? (mergeConfig b [(k, CVal.vlist l)]) k = some (CVal.vlist l) := by
  constructor
  · simp [mergeConfig, dictGet?, dictSet, List.find?]
  · intro b k l
    rw [mergeConfig_single_nondict]
    exact dictGet?_dictSet_self b k (CVal.vlist l)

theorem foldl_invariant {σ β : Type} (P : σ → Prop) (f : σ → β → σ) (l : List β)
    (hf : ∀ st x, x ∈ l → P st → P (f st x)) :
    ∀ st, P st → P (l.foldl f st) := by
  induction l with
  | nil => intro st h; exact h
  | cons x xs ih =>
      intro st h
      exact ih (fun st2 y hy => hf st2 y (List.mem_cons_of_mem x hy)) (f st x)
        (hf st x (List.mem_cons_self x xs) h)

theorem dictGet?_removeFromGraph (g : List (String × List String)) (d sid x : String) :
    dictGet? (removeFromGraph g d sid) x
      = (dictGet? g x).map (fun l => if x = d then l.erase sid else l) := by
  induction g with
  | nil => rfl
  | cons q rest ih =>
      simp only [removeFromGraph, List.map_cons]
      by_cases hd : q.1 = d
      · rw [if_pos hd, dictGet?_cons, dictGet?_cons]
        by_cases hx : q.1 = x
        · rw [if_pos hx, if_pos hx]
          have hxd : x = d := hx.symm.trans hd
          simp [hxd]
        · rw [if_neg hx, if_neg hx]
          exact ih
      · rw [if_neg hd, dictGet?_cons, dictGet?_cons]
        by_cases hx : q.1 = x
        · rw [if_pos hx, if_pos hx]
          have hxd : ¬ x = d := fun he => hd (hx.trans he)
          simp [hxd]
        · rw [if_neg hx, if_neg hx]
          exact ih

theorem dictGet?_removeFromGraph_none {g : List (String × List String)}
    {d sid x : String} (h : dictGet? g x = none) :
    dictGet? (removeFromGraph g d sid) x = none := by
  rw [dictGet?_removeFromGraph, h]
  rfl

theorem dictGet?_removeFromGraph_empty {g : List (String × List String)}
    {d sid x : String} (h : dictGet? g x = some []) :
    dictGet? (removeFromGraph g d sid) x = some [] := by
  rw [dictGet?_removeFromGraph, h]
  by_cases hx : x = d <;> simp [hx]

theorem dictGet?_removeFromGraph_keeps {g : List (String × List String)}
    {d sid x g0 : String} {l : List String}
    (h : dictGet? g x = some l) (hg : g0 ∈ l) (hne : sid ≠ g0) :
    ∃ l2, dictGet? (removeFromGraph g d sid) x = some l2 ∧ g0 ∈ l2 := by
  rw [dictGet?_removeFromGraph, h]
  by_cases hx : x = d
  · exact ⟨l.erase sid, by simp [hx], (List.mem_erase_of_ne (fun he => hne he.symm)).mpr hg⟩
  · exact ⟨l, by simp [hx], hg⟩

theorem stepDependent_good (g0 s0 sid : String)
    (st : List (String × List String) × List String) (dependent : String)
    (hsid : sid ≠ g0) (h : GoodState g0 s0 st) :
    GoodState g0 s0 (stepDependent sid st dependent) := by
  obtain ⟨hn, ⟨l, hs, hgl⟩, hq⟩ := h
  unfold stepDependent
  by_cases hcond : dictGet? (removeFromGraph st.1 dependent sid) dependent = some [] ∧
      ¬ dependent ∈ st.2
  · rw [if_pos hcond]
    refine ⟨dictGet?_removeFromGraph_none hn,
      dictGet?_removeFromGraph_keeps hs hgl hsid, ?_⟩
    intro x hx
    rcases List.mem_append.mp hx with hx | hx
    · exact dictGet?_removeFromGraph_empty (hq x hx)
    · rw [List.mem_singleton] at hx
      subst hx
      exact hcond.1
  · rw [if_neg hcond]
    refine ⟨dictGet?_removeFromGraph_none hn,
      dictGet?_removeFromGraph_keeps hs hgl hsid, ?_⟩
    intro x hx
    exact dictGet?_removeFromGraph_empty (hq x hx)

theorem stepSid_good (g0 s0 : String) (rev : List (String × List String))
    (sid : String) (st : List (String × List String) × List String)
    (hsid : sid ≠ g0) (h : GoodState g0 s0 st) :
    GoodState g0 s0 (stepSid rev st sid) := by
  unfold stepSid
  rcases hrev : dictGet? rev sid with _ | deps
  · exact h
  · exact foldl_invariant (GoodState g0 s0) (stepDependent sid) deps
      (fun st2 dependent _ h2 => stepDependent_good g0 s0 sid st2 dependent hsid h2)
      st h

theorem kahnLoop_avoid (g0 s0 : String) (rev : List (String × List String)) :
    ∀ (fuel : Nat) (graph : List (String × List String)) (noDeps : List String),
      GoodState g0 s0 (graph, noDeps) →
      ∀ layer ∈ kahnLoop rev fuel graph noDeps, ¬ s0 ∈ layer := by
  intro fuel
  induction fuel with
  | zero =>
      intro graph noDeps _ layer hl
      simp [kahnLoop] at hl
  | succ fuel ih =>
      intro graph noDeps h layer hl
      simp only [kahnLoop] at hl
      by_cases hnil : noDeps = []
      · rw [if_pos hnil] at hl
        simp at hl
      · rw [if_neg hnil] at hl
        rcases List.mem_cons.mp hl with hl | hl
        · subst hl
          intro hs0
          obtain ⟨l, hgs, hgl⟩ := h.2.1
          have h2 := h.2.2 s0 hs0
          rw [hgs] at h2
          have h3 := Option.some.inj h2
          rw [h3] at hgl
          cases hgl
        · have hsid : ∀ sid ∈ noDeps, sid ≠ g0 := by
            intro sid hmem he
            have h2 := h.2.2 sid hmem
            rw [he, h.1] at h2
            cases h2
          have hst : GoodState g0 s0 (noDeps.foldl (stepSid rev) (graph, [])) := by
            refine foldl_invariant (GoodState g0 s0) (stepSid rev) noDeps ?_ (graph, []) ?_
            · intro st2 sid hmem h2
              exact stepSid_good g0 s0 rev sid st2 (hsid sid hmem) h2
            · exact ⟨h.1, h.2.1, by intro x hx; cases hx⟩
          exact ih (noDeps.foldl (stepSid rev) (graph, [])).1
            (noDeps.foldl (stepSid rev) (graph, [])).2 hst layer hl

/-- C4 counterexample: a single registered service `"a:1"` whose only
dependency edge points to the never-registered id `"ghost"` (its registered
dependencies are empty, hence cycle-free) yields an empty layering: `"a:1"`
appears in no emitted layer, so the unregistered edge blocks it rather than
being ignored. -/
theorem c4_counterexample :
    getDependencyOrder [("a:1", ["ghost"])] = [] := rfl

/-- C4 (amended): a dependency edge referencing a never-registered service id
permanently blocks the dependent: since the unregistered id never appears as
a node of its own, it is never satisfied, and the dependent service appears
in no layer emitted by `get_dependency_order`. -/
theorem c4_theorem (svcs : List (String × List String)) (s0 : String)
    (deps : List String) (g0 : String)
    (hnd : (svcs.map (fun q => q.1)).Nodup) (hmem : (s0, deps) ∈ svcs)
    (hg : g0 ∈ deps) (hreg : ¬ g0 ∈ svcs.map (fun q => q.1)) :
    ∀ layer ∈ getDependencyOrder svcs, ¬ s0 ∈ layer := by
  have hkeys : (buildGraph svcs).map (fun q => q.1) = svcs.map (fun q => q.1) := by
    unfold buildGraph
    rw [List.map_map]
    rfl
  show ∀ layer ∈ kahnLoop (buildReverse svcs) (svcs.length + 1) (buildGraph svcs)
      (((buildGraph svcs).filter (fun q => q.2.isEmpty)).map (fun q => q.1)),
    ¬ s0 ∈ layer
  apply kahnLoop_avoid g0 s0
  refine ⟨?_, ?_, ?_⟩
  · show dictGet? (buildGraph svcs) g0 = none
    rw [dictGet?_eq_none_iff, hkeys]
    exact hreg
  · show ∃ l, dictGet? (buildGraph svcs) s0 = some l ∧ g0 ∈ l
    refine ⟨deps.dedup, ?_, List.mem_dedup.mpr hg⟩
    refine dictGet?_of_mem_of_nodup ?_ ?_
    · exact List.mem_map.mpr ⟨(s0, deps), hmem, rfl⟩
    · rw [hkeys]
      exact hnd
  · intro x hx
    rcases List.mem_map.mp hx with ⟨q, hq, he⟩
    rcases List.mem_filter.mp hq with ⟨hqg, hemp⟩
    have hq2 : q.2 = [] := by simpa using hemp
    rw [← he]
    have hmem2 : (q.1, ([] : List String)) ∈ buildGraph svcs := by
      rw [← hq2]
      exact hqg
    exact dictGet?_of_mem_of_nodup hmem2 (by rw [hkeys]; exact hnd)

theorem c4_witness :
    ¬ "a:1" ∈ (["b:1"] : List String) :=
  c4_theorem [("a:1", ["ghost"]), ("b:1", [])] "a:1" ["ghost"] "ghost"
    (by decide) (by decide) (by decide) (by decide) ["b:1"]
    (show ["b:1"] ∈ getDependencyOrder [("a:1", ["ghost"]), ("b:1", [])] by decide)
